import Mathlib

/-!
A shallow embedding of the paperback codec core: the chunk-header protocol
(src/header.rs), the layout planner (src/create/layout.rs), the encoder
(src/create/mod.rs, src/create/render.rs) and the reconstructor
(src/restore.rs), together with proofs about the embedded definitions.

Machine integers are modelled as Nat with explicit bounds where overflow or
truncation matters; byte buffers are lists of naturals; fallible operations
return Except.  External collaborators (SHA-512, the reed-solomon erasure
coder, the QR symbol codec, the file system) are modelled at the interface
the source uses, as documented on each definition.
-/

namespace Paperback

/-- Byte buffers (Vec of u8 in the source) are lists of naturals. -/
abbrev Bytes := List Nat

/-- header.rs: IDENTIFIER_LENGTH = 4. -/
def IDENTIFIER_LENGTH : Nat := 4

/-- header.rs: MetaHeader - identifier, hash (sha512, 64 bytes),
original_count (u16), recovery_count (u16), shard_bytes (u64). -/
structure MetaHeader where
  identifier : Bytes
  hash : Bytes
  original_count : Nat
  recovery_count : Nat
  shard_bytes : Nat
deriving DecidableEq, Repr

/-- header.rs: PayloadHeader - index (u16), identifier. -/
structure PayloadHeader where
  index : Nat
  identifier : Bytes
deriving DecidableEq, Repr

/-- header.rs: Header, the tagged union written to one QR code. -/
inductive Header where
  | meta (m : MetaHeader)
  | payload (p : PayloadHeader)
deriving DecidableEq, Repr

/-- Little-endian byte encoding of a natural number on k bytes, as
produced by byteorder's write_u16/write_u64 with LittleEndian. -/
def leBytes : Nat → Nat → Bytes
  | 0, _ => []
  | k + 1, n => n % 256 :: leBytes k (n / 256)

/-- Value of a little-endian byte list (all bytes read). -/
def leVal : Bytes → Nat
  | [] => 0
  | b :: rest => b + 256 * leVal rest

/-- Reading past the end of the buffer is the one header-level failure
(byteorder / read_exact surface std io errors; anyhow carries them). -/
inductive FormatError where
  | eof
deriving DecidableEq, Repr

/-- byteorder read_u16::LittleEndian over a byte stream. -/
def readU16 : Bytes → Except FormatError (Nat × Bytes)
  | a :: b :: rest => .ok (a + 256 * b, rest)
  | _ => .error .eof

/-- byteorder read_u64::LittleEndian over a byte stream. -/
def readU64 (l : Bytes) : Except FormatError (Nat × Bytes) :=
  if 8 ≤ l.length then .ok (leVal (l.take 8), l.drop 8) else .error .eof

/-- std read_exact into a k-byte array. -/
def readExact (k : Nat) (l : Bytes) : Except FormatError (Bytes × Bytes) :=
  if k ≤ l.length then .ok (l.take k, l.drop k) else .error .eof

/-- header.rs Header::write_to: Meta writes the 0xFFFF sentinel index then
identifier, hash, original_count, recovery_count, shard_bytes; Payload
writes its index then the identifier. -/
def Header.write_to : Header → Bytes
  | .meta m =>
      leBytes 2 65535 ++ m.identifier ++ m.hash ++ leBytes 2 m.original_count
        ++ leBytes 2 m.recovery_count ++ leBytes 8 m.shard_bytes
  | .payload p => leBytes 2 p.index ++ p.identifier

/-- header.rs Header::read_from: reads the leading u16; 0xFFFF selects the
Meta parse, any other value the Payload parse.  The match chain mirrors the
question-mark early returns of the source; the unconsumed remainder of the
buffer is returned alongside the header. -/
def Header.read_from (l : Bytes) : Except FormatError (Header × Bytes) :=
  match readU16 l with
  | .error e => .error e
  | .ok (index, rest) =>
    if index = 65535 then
      match readExact IDENTIFIER_LENGTH rest with
      | .error e => .error e
      | .ok (identifier, rest) =>
      match readExact 64 rest with
      | .error e => .error e
      | .ok (hash, rest) =>
      match readU16 rest with
      | .error e => .error e
      | .ok (oc, rest) =>
      match readU16 rest with
      | .error e => .error e
      | .ok (rc, rest) =>
      match readU64 rest with
      | .error e => .error e
      | .ok (sb, rest) => .ok (.meta ⟨identifier, hash, oc, rc, sb⟩, rest)
    else
      match readExact IDENTIFIER_LENGTH rest with
      | .error e => .error e
      | .ok (identifier, rest) => .ok (.payload ⟨index, identifier⟩, rest)

/-- Well-formedness of a header value as the Rust types enforce it:
fixed-width arrays for identifier and hash, u16/u64 field ranges, and a
payload index other than the Meta sentinel (header.rs documents the payload
index range as 0..=65534). -/
def Header.WF : Header → Prop
  | .meta m =>
      m.identifier.length = IDENTIFIER_LENGTH ∧ m.hash.length = 64 ∧
      m.original_count < 65536 ∧ m.recovery_count < 65536 ∧
      m.shard_bytes < 2 ^ 64
  | .payload p => p.identifier.length = IDENTIFIER_LENGTH ∧ p.index < 65535

theorem leVal_leBytes (k n : Nat) : leVal (leBytes k n) = n % 256 ^ k := by
  induction k generalizing n with
  | zero => simp [leBytes, leVal, Nat.mod_one]
  | succ k ih =>
      simp only [leBytes, leVal, ih]
      rw [Nat.pow_succ, mul_comm (256 ^ k) 256, Nat.mod_mul]

theorem leBytes_length (k n : Nat) : (leBytes k n).length = k := by
  induction k generalizing n with
  | zero => rfl
  | succ k ih => simp [leBytes, ih]

theorem readU16_leBytes (n : Nat) (rest : Bytes) :
    readU16 (leBytes 2 n ++ rest) = .ok (n % 65536, rest) := by
  simp only [leBytes, List.cons_append, List.nil_append, readU16]
  congr 2
  omega

theorem readExact_append (l rest : Bytes) (k : Nat) (h : l.length = k) :
    readExact k (l ++ rest) = .ok (l, rest) := by
  subst h
  simp [readExact, List.take_left, List.drop_left]

theorem readU64_leBytes (n : Nat) (rest : Bytes) :
    readU64 (leBytes 8 n ++ rest) = .ok (n % 2 ^ 64, rest) := by
  have hlen : (leBytes 8 n).length = 8 := leBytes_length 8 n
  have hpow : (256 : Nat) ^ 8 = 2 ^ 64 := by norm_num
  simp only [readU64, List.length_append, hlen]
  rw [if_pos (by omega), List.take_left' hlen, List.drop_left' hlen,
    leVal_leBytes, hpow]

theorem readExact_exact (l : Bytes) (k : Nat) (h : l.length = k) :
    readExact k l = .ok (l, []) := by
  subst h
  simp [readExact, List.take_length, List.drop_length]

theorem readU64_leBytes_nil (n : Nat) :
    readU64 (leBytes 8 n) = .ok (n % 2 ^ 64, []) := by
  have := readU64_leBytes n []
  simpa using this

/-- Round trip for the header protocol, for headers the Rust types can
represent: both variants read back exactly, provided a Payload index stays
below the Meta sentinel 0xFFFF. -/
theorem Header.read_from_write_to (h : Header) (hwf : h.WF) :
    Header.read_from h.write_to = .ok (h, []) := by
  cases h with
  | meta m =>
      obtain ⟨hid, hhash, hoc, hrc, hsb⟩ := hwf
      simp only [Header.write_to, Header.read_from, List.append_assoc]
      rw [readU16_leBytes]
      norm_num
      rw [readExact_append _ _ _ hid]
      dsimp only
      rw [readExact_append _ _ _ hhash]
      dsimp only
      rw [readU16_leBytes, Nat.mod_eq_of_lt hoc]
      dsimp only
      rw [readU16_leBytes, Nat.mod_eq_of_lt hrc]
      dsimp only
      rw [readU64_leBytes_nil, Nat.mod_eq_of_lt hsb]
  | payload p =>
      obtain ⟨hid, hidx⟩ := hwf
      simp only [Header.write_to, Header.read_from]
      rw [readU16_leBytes, Nat.mod_eq_of_lt (by omega : p.index < 65536)]
      dsimp only
      rw [if_neg (by omega : ¬ p.index = 65535)]
      rw [readExact_exact _ _ hid]

/-! ## Layout planner (src/create/layout.rs)

The source computes page geometry in f32 millimetres (the printpdf Mm
type); the embedding uses exact rational arithmetic for the same formulas.
For the concrete scenario treated below every floor taken is far from an
integer boundary, so the f32 and rational computations agree. -/

/-- header.rs: PayloadHeader::LENGTH = size_of(u16) + IDENTIFIER_LENGTH. -/
def PayloadHeader.LENGTH : Nat := 2 + IDENTIFIER_LENGTH

/-- qrcode EcLevel; the derived rank matches the declaration order of the
qrcode crate, which gives L < M < Q < H. -/
inductive EcLevel where
  | L
  | M
  | Q
  | H
deriving DecidableEq, Repr

/-- Rank giving the qrcode crate PartialOrd order on EcLevel. -/
def EcLevel.rank : EcLevel → Nat
  | .L => 0
  | .M => 1
  | .Q => 2
  | .H => 3

/-- args.rs: PaperSize. -/
inductive PaperSize where
  | a4
  | letter
deriving DecidableEq, Repr

/-- args.rs: From PaperSize for PageDimensions, (width, height) in mm. -/
def PaperSize.dimensions : PaperSize → ℚ × ℚ
  | .a4 => (210, 297)
  | .letter => (2159 / 10, 2794 / 10)

/-- args.rs: RecoveryFactor.  The CLI turns a multiple (Nx) into a
percentage at parse time, so only the two source variants appear here. -/
inductive RecoveryFactor where
  | percentage (p : ℚ)
  | pages (c : Nat)
deriving DecidableEq, Repr

/-- args.rs: the CreateArgs fields the layout computation reads (file
paths and the commit string are not consumed by compute). -/
structure CreateArgs where
  row_count : Nat
  recovery_factor : RecoveryFactor
  error_correction : EcLevel
  module_length : ℚ
  paper_size : PaperSize
  margin_top : ℚ
  margin_right : ℚ
  margin_bottom : ℚ
  margin_left : ℚ
deriving DecidableEq, Repr

/-- Data codewords (L, M, Q, H) per QR version, the standard QR capacity
table; the qrcode crate's Bits::max_len returns 8 times these values for
Normal versions. -/
def qrDataCodewords (v : Nat) : Nat × Nat × Nat × Nat :=
  match v with
  | 1 => (19, 16, 13, 9)
  | 2 => (34, 28, 22, 16)
  | 3 => (55, 44, 34, 26)
  | 4 => (80, 64, 48, 36)
  | 5 => (108, 86, 62, 46)
  | 6 => (136, 108, 76, 60)
  | 7 => (156, 124, 88, 66)
  | 8 => (194, 154, 110, 86)
  | 9 => (232, 182, 132, 100)
  | 10 => (274, 216, 154, 122)
  | 11 => (324, 254, 180, 140)
  | 12 => (370, 290, 206, 158)
  | 13 => (428, 334, 244, 180)
  | 14 => (461, 365, 261, 197)
  | 15 => (523, 415, 295, 223)
  | 16 => (589, 453, 325, 253)
  | 17 => (647, 507, 367, 283)
  | 18 => (721, 563, 397, 313)
  | 19 => (795, 627, 445, 341)
  | 20 => (861, 669, 485, 385)
  | 21 => (932, 714, 512, 406)
  | 22 => (1006, 782, 568, 442)
  | 23 => (1094, 860, 614, 464)
  | 24 => (1174, 914, 664, 514)
  | 25 => (1276, 1000, 718, 538)
  | 26 => (1370, 1062, 754, 596)
  | 27 => (1468, 1128, 808, 628)
  | 28 => (1531, 1193, 871, 661)
  | 29 => (1631, 1267, 911, 701)
  | 30 => (1735, 1373, 985, 745)
  | 31 => (1843, 1455, 1033, 793)
  | 32 => (1955, 1541, 1115, 845)
  | 33 => (2071, 1631, 1171, 901)
  | 34 => (2191, 1725, 1231, 961)
  | 35 => (2306, 1812, 1286, 986)
  | 36 => (2434, 1914, 1354, 1054)
  | 37 => (2566, 1992, 1426, 1096)
  | 38 => (2702, 2102, 1502, 1142)
  | 39 => (2812, 2216, 1582, 1222)
  | 40 => (2956, 2334, 1666, 1276)
  | _ => (0, 0, 0, 0)

/-- qrcode Bits::max_len in bits for a Normal version and level. -/
def qrDataBits (v : Nat) (l : EcLevel) : Nat :=
  let t := qrDataCodewords v
  8 * (match l with
       | .L => t.1
       | .M => t.2.1
       | .Q => t.2.2.1
       | .H => t.2.2.2)

/-- qrcode Version::Normal(v).width() = 17 + 4v modules. -/
def versionWidth (v : Nat) : Nat := 17 + 4 * v

/-- num_integer prev_multiple_of: largest multiple of m at most n. -/
def prevMultipleOf (n m : Nat) : Nat := n - n % m

/-- Rust usize::next_multiple_of: smallest multiple of m at least n. -/
def nextMultipleOf (n m : Nat) : Nat := ((n + m - 1) / m) * m

/-- Rust usize::div_ceil. -/
def divCeil (a b : Nat) : Nat := (a + b - 1) / b

/-- layout.rs compute, geometry part: how many QR codes of the given
version fit per row.  The source computes this in f32 mm and casts the
floor to usize (saturating at zero); the embedding floors the exact
rational value. -/
def shardsPerRow (args : CreateArgs) (v : Nat) : Nat :=
  let page := args.paper_size.dimensions
  let avail_width := page.1 - args.margin_left - args.margin_right
  let avail_height := page.2 - args.margin_top - args.margin_bottom
  let avail_min := min avail_width avail_height
  let quiet_zone_width := args.module_length * 4
  let width_per_shard := args.module_length * ((versionWidth v : ℚ) + 4)
  Int.toNat ⌊(avail_min - quiet_zone_width) / width_per_shard⌋

/-- layout.rs compute: bytes available for data in one QR code, after the
mode indicator (4 bits) and the character count indicator (8 bits for
versions 1-9, 16 for 10-40).  Both fallible steps of the source
(Bits::max_len and the char-count match) always succeed for versions
1..40. -/
def rawByteCount (v : Nat) (l : EcLevel) : Nat :=
  let bits := qrDataBits v l
  let char_count_length := if v ≤ 9 then 8 else 16
  (bits - 4 - char_count_length) / 8

/-- One (version, level) configuration examined by the search loop in
layout.rs compute, together with the per-row fit and the raw per-shard
byte count it determines. -/
structure Candidate where
  version : Nat
  level : EcLevel
  shards_per_row : Nat
  data_bytes_per_shard : Nat
deriving DecidableEq, Repr

/-- layout.rs compute: data bytes per page of a candidate - the per-shard
count rounded down to the 64-byte coding block, times shards per page. -/
def Candidate.pageBytes (c : Candidate) : Nat :=
  prevMultipleOf c.data_bytes_per_shard 64 * c.shards_per_row * c.shards_per_row

/-- layout.rs compute: the inner loop iterates levels from highest to
lowest correction. -/
def ecLevelsHighFirst : List EcLevel := [.H, .Q, .M, .L]

/-- The (version, level) pairs the double loop of layout.rs compute
examines, in iteration order, with the fit function factored out: versions
1..40 whose per-row fit reaches row_count, and levels at or above the
configured minimum, highest correction first.  The source's continue
statements become the empty list and the filter. -/
def candidatesWith (fit : Nat → Nat) (row_count : Nat) (minLevel : EcLevel) :
    List Candidate :=
  (List.range' 1 40).flatMap fun v =>
    let spr := fit v
    if spr < row_count then []
    else
      (ecLevelsHighFirst.filter fun l =>
          decide (¬ l.rank < minLevel.rank)).map
        fun l => ⟨v, l, spr, rawByteCount v l - PayloadHeader.LENGTH⟩

/-- The running best of the search loop in layout.rs compute. -/
structure BestAcc where
  data_bytes_per_page : Nat
  version : Nat
  level : EcLevel
  shards_per_row : Nat
  data_bytes_per_shard : Nat
deriving DecidableEq, Repr

/-- layout.rs compute: initial values of the best_* mutables. -/
def initBest : BestAcc := ⟨0, 1, .L, 0, 0⟩

/-- The accumulator a candidate becomes when it wins an update. -/
def BestAcc.ofCandidate (c : Candidate) : BestAcc :=
  ⟨c.pageBytes, c.version, c.level, c.shards_per_row, c.data_bytes_per_shard⟩

/-- layout.rs compute: the body of the search loop - update the best
configuration only on a strict improvement in data bytes per page. -/
def stepBest (b : BestAcc) (c : Candidate) : BestAcc :=
  if c.pageBytes > b.data_bytes_per_page then .ofCandidate c else b

/-- The full search of layout.rs compute, over a given fit function. -/
def bestConfigWith (fit : Nat → Nat) (row_count : Nat) (minLevel : EcLevel) :
    BestAcc :=
  (candidatesWith fit row_count minLevel).foldl stepBest initBest

/-- layout.rs: the Options record compute returns. -/
structure Options where
  page_width : ℚ
  page_height : ℚ
  margin_bottom : ℚ
  margin_left : ℚ
  module_length : ℚ
  avail_width : ℚ
  avail_height : ℚ
  identifier : Bytes
  hash : Bytes
  version : Nat
  level : EcLevel
  shards_per_row : Nat
  data_bytes_per_shard : Nat
  data_shard_count : Nat
  recovery_shard_count : Nat
  data_page_count : Nat
  recovery_page_count : Nat
deriving DecidableEq, Repr

/-- layout.rs compute, counts part, from the winning configuration: round
the shard bytes down to the 64-byte block, append the 8-byte trailer, pad
to a shard multiple, and derive shard and page counts.  The percentage
recovery factor mirrors the source's f32 product cast to usize (truncating
toward zero, saturating at zero). -/
def computeWith (fit : Nat → Nat) (args : CreateArgs) (data_size : Nat)
    (identifier : Bytes) (data_hash : Bytes) : Except String Options :=
  let page := args.paper_size.dimensions
  let best := bestConfigWith fit args.row_count args.error_correction
  if best.data_bytes_per_shard < 64 + PayloadHeader.LENGTH then
    .error "Could not find QR code configuration that holds enough data; try lowering row-count"
  else
    let data_bytes_per_shard := prevMultipleOf best.data_bytes_per_shard 64
    let shards_per_page := best.shards_per_row * best.shards_per_row
    let buffer_size := nextMultipleOf (8 + data_size) data_bytes_per_shard
    let data_shard_count := divCeil buffer_size data_bytes_per_shard
    let data_page_count := divCeil data_shard_count shards_per_page
    let recovery_page_count := data_page_count +
      (match args.recovery_factor with
       | .pages c => c
       | .percentage p =>
           divCeil (Int.toNat ⌊p / 100 * (data_shard_count : ℚ)⌋)
             shards_per_page)
    .ok
      { page_width := page.1
        page_height := page.2
        margin_bottom := args.margin_bottom
        margin_left := args.margin_left
        module_length := args.module_length
        avail_width := page.1 - args.margin_left - args.margin_right
        avail_height := page.2 - args.margin_top - args.margin_bottom
        identifier := identifier
        hash := data_hash
        version := best.version
        level := best.level
        shards_per_row := best.shards_per_row
        data_bytes_per_shard := data_bytes_per_shard
        data_shard_count := data_shard_count
        recovery_shard_count := recovery_page_count * shards_per_page
        data_page_count := data_page_count
        recovery_page_count := recovery_page_count }

/-- layout.rs compute: the search uses the geometric per-row fit. -/
def compute (args : CreateArgs) (data_size : Nat) (identifier : Bytes)
    (data_hash : Bytes) : Except String Options :=
  computeWith (shardsPerRow args) args data_size identifier data_hash

/-! ## The 10000-byte scenario -/

theorem toNat_floor_eq (q : ℚ) (n : Nat) (h1 : (n : ℚ) ≤ q) (h2 : q < n + 1) :
    Int.toNat ⌊q⌋ = n := by
  have hf : ⌊q⌋ = (n : Int) := by
    rw [Int.floor_eq_iff]
    constructor
    · exact_mod_cast h1
    · push_cast
      exact h2
  rw [hf, Int.toNat_ofNat]

/-- The CLI configuration of the 10000-byte scenario: minimum 3 codes per
row, 50 percent recovery factor, and the remaining args.rs defaults
(error correction Q, module length 1mm, A4 paper, 4.32mm margins). -/
def scenarioArgs : CreateArgs :=
  { row_count := 3
    recovery_factor := .percentage 50
    error_correction := .Q
    module_length := 1
    paper_size := .a4
    margin_top := 108 / 25
    margin_right := 108 / 25
    margin_bottom := 108 / 25
    margin_left := 108 / 25 }

/-- Per-version row fits of the scenario geometry (floor of
197.36 / (21 + 4v) for v = 1..40). -/
def scenarioFit (v : Nat) : Nat :=
  [7, 6, 5, 5, 4, 4, 4, 3, 3, 3, 3, 2, 2, 2, 2, 2, 2, 2, 2, 1, 1, 1, 1, 1,
    1, 1, 1, 1, 1, 1, 1, 1, 1, 1, 1, 1, 1, 1, 1, 1].getD (v - 1) 0

theorem scenario_fit_eq :
    ∀ v ∈ List.range' 1 40, shardsPerRow scenarioArgs v = scenarioFit v := by
  intro v hv
  have hb : 1 ≤ v ∧ v < 41 := by
    constructor
    · exact (List.mem_range'_1.mp hv).1
    · have := (List.mem_range'_1.mp hv).2
      omega
  obtain ⟨hlo, hhi⟩ := hb
  interval_cases v <;>
    (simp only [shardsPerRow, scenarioArgs, PaperSize.dimensions, versionWidth,
        scenarioFit, min_def]
     exact toNat_floor_eq _ _ (by norm_num) (by norm_num))

theorem flatMap_congr {α β : Type _} {l : List α} {f g : α → List β}
    (h : ∀ a ∈ l, f a = g a) : l.flatMap f = l.flatMap g := by
  induction l with
  | nil => rfl
  | cons a l ih =>
      simp only [List.flatMap_cons]
      rw [h a (by simp), ih fun a ha => h a (by simp [ha])]

theorem candidatesWith_congr (f g : Nat → Nat) (rc : Nat) (ml : EcLevel)
    (h : ∀ v ∈ List.range' 1 40, f v = g v) :
    candidatesWith f rc ml = candidatesWith g rc ml := by
  unfold candidatesWith
  exact flatMap_congr fun v hv => by rw [h v hv]

theorem scenario_bestConfig :
    bestConfigWith (shardsPerRow scenarioArgs) scenarioArgs.row_count
      scenarioArgs.error_correction = ⟨1152, 10, .Q, 3, 145⟩ := by
  unfold bestConfigWith
  rw [candidatesWith_congr _ scenarioFit _ _ scenario_fit_eq]
  decide

/-- Identifier used in the scenario instantiations. -/
def scenId : Bytes := [0, 0, 0, 0]

/-- Document hash used in the scenario instantiations. -/
def scenHash : Bytes := List.replicate 64 0

/-- The plan compute returns for the scenario. -/
def scenarioPlan : Options :=
  { page_width := 210
    page_height := 297
    margin_bottom := 108 / 25
    margin_left := 108 / 25
    module_length := 1
    avail_width := 210 - 108 / 25 - 108 / 25
    avail_height := 297 - 108 / 25 - 108 / 25
    identifier := scenId
    hash := scenHash
    version := 10
    level := .Q
    shards_per_row := 3
    data_bytes_per_shard := 128
    data_shard_count := 79
    recovery_shard_count := 126
    data_page_count := 9
    recovery_page_count := 14 }

theorem intToNat39 : Int.toNat 39 = 39 := rfl

theorem scenario_compute_eq :
    compute scenarioArgs 10000 scenId scenHash = .ok scenarioPlan := by
  rw [compute]
  rw [computeWith]
  rw [scenario_bestConfig]
  norm_num [divCeil, nextMultipleOf, prevMultipleOf, PayloadHeader.LENGTH,
    IDENTIFIER_LENGTH, scenarioArgs, scenarioPlan, PaperSize.dimensions,
    intToNat39, Options.mk.injEq]

/-! ## Claim C2: header round trip -/

/-- C2 counterexample: a Payload header carrying the sentinel index 65535
does not round trip.  Its byte image starts with 0xFFFF, so read_from
takes the Meta branch and fails on the 6-byte buffer instead of returning
the Payload header, refuting the claim at this input. -/
theorem c2_counterexample :
    Header.read_from (Header.write_to (.payload ⟨65535, [1, 2, 3, 4]⟩)) =
        .error .eof ∧
      (Except.error .eof : Except FormatError (Header × Bytes)) ≠
        .ok (.payload ⟨65535, [1, 2, 3, 4]⟩, []) :=
  ⟨rfl, fun hcontra => Except.noConfusion hcontra⟩

/-- C2 (amended): reading back the bytes produced by writing h returns a
header equal to h for the Meta variant and for the Payload variant with
any index 0..65534 (the boundary values 0 and 65534 included); the
sentinel 65535 is reserved for Meta and cannot round trip as a Payload. -/
theorem c2_header_round_trip (h : Header) (hwf : h.WF) :
    Header.read_from h.write_to = .ok (h, []) :=
  Header.read_from_write_to h hwf

/-- C2 witness: the round trip at the boundary payload indices 0 and
65534 and at a concrete Meta header. -/
theorem c2_header_round_trip_witness :
    Header.read_from (Header.write_to (.payload ⟨0, [1, 2, 3, 4]⟩)) =
        .ok (.payload ⟨0, [1, 2, 3, 4]⟩, []) ∧
      Header.read_from (Header.write_to (.payload ⟨65534, [1, 2, 3, 4]⟩)) =
        .ok (.payload ⟨65534, [1, 2, 3, 4]⟩, []) ∧
      Header.read_from
          (Header.write_to (.meta ⟨[1, 2, 3, 4], List.replicate 64 7, 79, 126, 128⟩)) =
        .ok (.meta ⟨[1, 2, 3, 4], List.replicate 64 7, 79, 126, 128⟩, []) :=
  ⟨c2_header_round_trip _ ⟨rfl, by norm_num⟩,
    c2_header_round_trip _ ⟨rfl, by norm_num⟩,
    c2_header_round_trip _ ⟨rfl, rfl, by norm_num, by norm_num, by norm_num⟩⟩

/-! ## Claim C3: the 10000-byte scenario counts -/

theorem intToNat5 : Int.toNat 5 = 5 := rfl

theorem toNat_ceil_eq (q : ℚ) (n : Nat) (h1 : (n : ℚ) - 1 < q) (h2 : q ≤ n) :
    Int.toNat ⌈q⌉ = n := by
  have hf : ⌈q⌉ = (n : Int) := by
    rw [Int.ceil_eq_iff]
    constructor
    · push_cast
      exact h1
    · exact_mod_cast h2
  rw [hf, Int.toNat_ofNat]

/-- C3 counterexample: the claimed formula recovery_count =
original_count + ceil(0.5 * original_count / symbols_per_page) *
symbols_per_page gives 79 + ceil(39.5/9)*9 = 124 on the scenario, but
compute returns 126: layout.rs also rounds the data shard count up to
whole pages before adding the extra recovery pages. -/
theorem c3_counterexample :
    (compute scenarioArgs 10000 scenId scenHash).toOption.map
        (fun o =>
          (o.recovery_shard_count,
            o.data_shard_count +
              Int.toNat ⌈(1 / 2 : ℚ) * o.data_shard_count /
                  ((o.shards_per_row * o.shards_per_row : Nat) : ℚ)⌉ *
                (o.shards_per_row * o.shards_per_row)))
      = some (126, 124) ∧ (126 : Nat) ≠ 124 := by
  constructor
  · rw [scenario_compute_eq]
    simp only [Except.toOption, Option.map_some']
    norm_num [scenarioPlan, intToNat5]
    rw [toNat_ceil_eq ((79 : ℚ) / 18) 5 (by norm_num) (by norm_num)]
  · decide

/-- C3 (amended): for the 10000-byte scenario with minimum 3 symbols per
row and a 50 percent recovery factor, shard_bytes is 128 (a multiple of
64), original_count = ceil(padded_size / shard_bytes) = 79 with
padded_size = (10000 + 8) rounded up to a multiple of shard_bytes, and
recovery_count = (ceil(original_count / spp) + ceil(trunc(0.5 *
original_count) / spp)) * spp = 126 with spp = 9 symbols per page: the
data shards are rounded up to whole pages too, and the percentage product
is truncated to an integer before being rounded up to pages. -/
theorem c3_scenario_layout :
    (compute scenarioArgs 10000 scenId scenHash).toOption.map
        (fun o => (o.data_bytes_per_shard % 64, o.data_bytes_per_shard,
          o.data_shard_count, o.recovery_shard_count))
      = some (0, 128, 79, 126) ∧
    divCeil (nextMultipleOf (10000 + 8) 128) 128 = 79 ∧
    (divCeil 79 (3 * 3) +
        divCeil (Int.toNat ⌊(50 : ℚ) / 100 * 79⌋) (3 * 3)) * (3 * 3) = 126 := by
  refine ⟨?_, by decide, ?_⟩
  · rw [scenario_compute_eq]
    decide
  · norm_num [divCeil, intToNat39]

/-! ## Claim C4: the search maximizes usable data bytes per page -/

/-- Behaviour of the search fold of layout.rs compute: either no candidate
beat the initial accumulator, or the result is the first candidate (in
iteration order) attaining the maximum data bytes per page. -/
theorem foldl_stepBest_spec (l : List Candidate) (b : BestAcc) :
    (l.foldl stepBest b = b ∧ ∀ c ∈ l, c.pageBytes ≤ b.data_bytes_per_page) ∨
    (∃ l1 c l2, l = l1 ++ c :: l2 ∧
      l.foldl stepBest b = .ofCandidate c ∧
      b.data_bytes_per_page < c.pageBytes ∧
      (∀ c2 ∈ l1, c2.pageBytes < c.pageBytes) ∧
      (∀ c2 ∈ l2, c2.pageBytes ≤ c.pageBytes)) := by
  induction l generalizing b with
  | nil => exact .inl ⟨rfl, by simp⟩
  | cons a l ih =>
      rw [List.foldl_cons]
      by_cases hcond : a.pageBytes > b.data_bytes_per_page
      · have hstep : stepBest b a = .ofCandidate a := by
          simp [stepBest, hcond]
        rw [hstep]
        rcases ih (.ofCandidate a) with ⟨heq, hle⟩ |
          ⟨l1, c, l2, hsplit, heq, hgt, hl1, hl2⟩
        · refine .inr ⟨[], a, l, by simp, heq, hcond, by simp, ?_⟩
          intro c2 hc2
          simpa [BestAcc.ofCandidate] using hle c2 hc2
        · have hac : a.pageBytes < c.pageBytes := by
            simpa [BestAcc.ofCandidate] using hgt
          refine .inr ⟨a :: l1, c, l2, by simp [hsplit], heq,
            lt_trans hcond hac, ?_, hl2⟩
          intro c2 hc2
          rcases List.mem_cons.mp hc2 with h | h
          · subst h
            exact hac
          · exact hl1 c2 h
      · have hstep : stepBest b a = b := by
          simp [stepBest, hcond]
        rw [hstep]
        rcases ih b with ⟨heq, hle⟩ | ⟨l1, c, l2, hsplit, heq, hgt, hl1, hl2⟩
        · refine .inl ⟨heq, ?_⟩
          intro c2 hc2
          rcases List.mem_cons.mp hc2 with h | h
          · subst h
            omega
          · exact hle c2 h
        · refine .inr ⟨a :: l1, c, l2, by simp [hsplit], heq, hgt, ?_, hl2⟩
          intro c2 hc2
          rcases List.mem_cons.mp hc2 with h | h
          · subst h
            omega
          · exact hl1 c2 h

/-- C4: whenever compute succeeds, the selected (version, level) pair is a
candidate (version 1..40 with per-row fit at least the configured minimum,
level at or above the configured minimum), it attains the maximum usable
data bytes per page - prevMultipleOf(raw bytes - header length, 64) times
shards per row squared - over all candidates, and it is the first
candidate in iteration order attaining that maximum (every strictly
earlier candidate is strictly worse), where iteration runs versions in
increasing order and levels from highest to lowest correction, so ties
prefer higher error correction. -/
theorem c4_selection_maximizes_page_bytes (args : CreateArgs) (n : Nat)
    (id hash : Bytes) (plan : Options)
    (h : compute args n id hash = .ok plan) :
    ∃ l1 c l2,
      candidatesWith (shardsPerRow args) args.row_count args.error_correction
        = l1 ++ c :: l2 ∧
      plan.version = c.version ∧ plan.level = c.level ∧
      plan.shards_per_row = c.shards_per_row ∧
      plan.data_bytes_per_shard = prevMultipleOf c.data_bytes_per_shard 64 ∧
      (∀ c2 ∈ l1 ++ c :: l2, c2.pageBytes ≤ c.pageBytes) ∧
      (∀ c2 ∈ l1, c2.pageBytes < c.pageBytes) := by
  rw [compute, computeWith] at h
  set cands := candidatesWith (shardsPerRow args) args.row_count
    args.error_correction with hcands
  set best := bestConfigWith (shardsPerRow args) args.row_count
    args.error_correction with hbest
  have hbc : best = cands.foldl stepBest initBest := by
    rw [hbest]
    unfold bestConfigWith
    rw [← hcands]
  by_cases hguard : best.data_bytes_per_shard < 64 + PayloadHeader.LENGTH
  · rw [if_pos hguard] at h
    exact absurd h (by simp)
  · rw [if_neg hguard] at h
    injection h with hplan
    subst hplan
    rcases foldl_stepBest_spec cands initBest with ⟨heq, _⟩ |
      ⟨l1, c, l2, hsplit, heq, hgt, hl1, hl2⟩
    · exfalso
      have hz : best.data_bytes_per_shard = 0 := by
        rw [hbc, heq]
        rfl
      rw [hz] at hguard
      simp [PayloadHeader.LENGTH, IDENTIFIER_LENGTH] at hguard
    · have hb2 : best = .ofCandidate c := by
        rw [hbc, heq]
      refine ⟨l1, c, l2, hsplit, ?_, ?_, ?_, ?_, ?_, hl1⟩
      · simp [hb2, BestAcc.ofCandidate]
      · simp [hb2, BestAcc.ofCandidate]
      · simp [hb2, BestAcc.ofCandidate]
      · simp [hb2, BestAcc.ofCandidate]
      · intro c2 hc2
        rcases List.mem_append.mp hc2 with hmem | hmem
        · exact le_of_lt (hl1 c2 hmem)
        · rcases List.mem_cons.mp hmem with hmem2 | hmem2
          · subst hmem2
            exact le_refl _
          · exact hl2 c2 hmem2

/-- C4 witness: the scenario instantiation - compute succeeds there, so
its selected configuration is the first maximum of the candidate list. -/
theorem c4_selection_maximizes_page_bytes_witness :
    ∃ l1 c l2,
      candidatesWith (shardsPerRow scenarioArgs) scenarioArgs.row_count
          scenarioArgs.error_correction
        = l1 ++ c :: l2 ∧
      scenarioPlan.version = c.version ∧ scenarioPlan.level = c.level ∧
      scenarioPlan.shards_per_row = c.shards_per_row ∧
      scenarioPlan.data_bytes_per_shard =
        prevMultipleOf c.data_bytes_per_shard 64 ∧
      (∀ c2 ∈ l1 ++ c :: l2, c2.pageBytes ≤ c.pageBytes) ∧
      (∀ c2 ∈ l1, c2.pageBytes < c.pageBytes) :=
  c4_selection_maximizes_page_bytes scenarioArgs 10000 scenId scenHash
    scenarioPlan scenario_compute_eq

/-! ## Claim C8: layout determinism -/

/-- C8: compute is a pure function of its inputs - two invocations with
identical page configuration, file byte length, identifier and document
hash produce identical layout plans (all fields, in particular version,
level, symbols per row, data bytes per shard, shard counts and page
counts). -/
theorem c8_compute_deterministic (a1 a2 : CreateArgs) (n1 n2 : Nat)
    (i1 i2 h1 h2 : Bytes) (ha : a1 = a2) (hn : n1 = n2) (hi : i1 = i2)
    (hh : h1 = h2) : compute a1 n1 i1 h1 = compute a2 n2 i2 h2 := by
  subst ha
  subst hn
  subst hi
  subst hh
  rfl

/-- C8 witness: determinism instantiated at the scenario inputs. -/
theorem c8_compute_deterministic_witness :
    compute scenarioArgs 10000 scenId scenHash =
      compute scenarioArgs 10000 scenId scenHash :=
  c8_compute_deterministic scenarioArgs scenarioArgs 10000 10000 scenId scenId
    scenHash scenHash rfl rfl rfl rfl

/-! ## External collaborators of the encoder and reconstructor

SHA-512, the reed-solomon-simd erasure coder and the file system are
external crates; they are modelled at the interface the repository code
uses, as the spec describes them (sections 3 and 6). -/

/-- Modelled from the spec: the Document Hash capability (SHA-512 of the
chksum crates, an external collaborator).  The development only uses that
it is a fixed deterministic function from byte sequences to 64-byte
digests, so it is modelled as a rolling checksum spread over 64 bytes. -/
def sha512Model (l : Bytes) : Bytes :=
  leBytes 8 (l.foldl (fun a b => (a * 131 + b + 17) % 2 ^ 64) 5381) ++
    List.replicate 56 0

theorem sha512Model_length (l : Bytes) : (sha512Model l).length = 64 := by
  simp [sha512Model, leBytes_length]

/-- Errors of the modelled reed-solomon-simd decoder. -/
inductive RsError where
  | unsupported
  | invalidIndex
  | duplicateIndex
  | differentSize
  | notEnough
deriving DecidableEq, Repr

/-- Modelled from the spec: ReedSolomonDecoder::new of the external
reed-solomon-simd crate accepts the configuration when the counts are
positive and the shard size is a positive multiple of the coder's 64-byte
internal block (spec section 3: data bytes per shard is a multiple of the
erasure coder's internal block size; layout.rs rounds down to 64 for this
reason). -/
def rsDecoderOk (original_count recovery_count shard_bytes : Nat) : Bool :=
  decide (0 < original_count) && decide (0 < recovery_count) &&
    decide (0 < shard_bytes) && decide (shard_bytes % 64 = 0)

/-- Modelled from the spec: add_recovery_shard of the external
reed-solomon-simd decoder - rejects an index at or beyond recovery_count,
a second shard at an index already supplied (the crate's
DuplicateRecoveryShardIndex error), and a shard whose length differs from
the configured shard_bytes.  Accumulates the accepted (index, shard)
pairs in order. -/
def rsAddShards (recovery_count shard_bytes : Nat) :
    List (Nat × Bytes) → List (Nat × Bytes) →
    Except RsError (List (Nat × Bytes))
  | acc, [] => .ok acc
  | acc, (i, s) :: rest =>
      if recovery_count ≤ i then .error .invalidIndex
      else if (acc.map Prod.fst).contains i then .error .duplicateIndex
      else if s.length ≠ shard_bytes then .error .differentSize
      else rsAddShards recovery_count shard_bytes (acc ++ [(i, s)]) rest

/-- Modelled from the spec: decode of the erasure-coding capability (spec
section 6 and glossary) - with at least original_count distinct valid
recovery shards the original data shards are reconstructed, in index
order; with fewer the decoder fails (InsufficientDataError).  The model
carries the original shard list - the ghost content that the algebraic
redundancy of real Reed-Solomon recovery shards stands for; the
repository code never inspects recovery shard bytes itself. -/
def rsDecode (originals : List Bytes) (original_count : Nat)
    (added : List (Nat × Bytes)) : Except RsError (List Bytes) :=
  if added.length < original_count then .error .notEnough else .ok originals

/-- Errors surfaced by the embedded restore path (the source wraps all of
them in anyhow errors with messages). -/
inductive RestoreError where
  | rs (e : RsError)
  | noChunks
  | io
  | checksumMismatch
  | format (e : FormatError)
  | metaMismatch
  | metaIdentifierMismatch
  | payloadIdentifierMismatch
  | noMeta
deriving DecidableEq, Repr

/-- Modelled from the Rust standard library: File::options with write and
truncate set, create_new set to the given flag and create left unset, as
restore.rs write_output builds it.  The destination file is an optional
byte content.  create_new open fails when the destination exists and
otherwise creates it empty; with create_new and create both false, open
fails when the destination is missing and otherwise truncates it.  none
is the open error. -/
def openOutput (create_new : Bool) (fs : Option Bytes) :
    Option (Option Bytes) :=
  match create_new, fs with
  | true, some _ => none
  | true, none => some (some [])
  | false, some _ => some (some [])
  | false, none => none

/-! ## Reconstructor (src/restore.rs) -/

/-- restore.rs write_output: the write loop.  Whole decoded chunks are
hashed and written while they fit in the remaining expected byte budget
e; the first chunk that would overflow contributes its needed prefix and
the loop breaks.  Returns the bytes written (the hasher consumes the same
bytes). -/
def writeChunks : List Bytes → Nat → Bytes
  | [], _ => []
  | c :: cs, e =>
      if c.length > e then c.take e else c ++ writeChunks cs (e - c.length)

/-- restore.rs write_output, over the modelled erasure decoder and file
system: configure the decoder from the Meta header, feed every payload as
a recovery shard, decode, read the expected size from the trailing 8
bytes of the last decoded chunk, open the destination (create_new is the
negation of force), write the truncated bytes, and only then compare the
recomputed digest of written-plus-commit with the Meta hash.  Returns the
outcome and the final destination state; originals is the ghost content
of the modelled decoder. -/
def write_output (originals : List Bytes) (meta : MetaHeader)
    (payloads : List (Nat × Bytes)) (force : Bool) (commit : Bytes)
    (fs : Option Bytes) : Except RestoreError Unit × Option Bytes :=
  if rsDecoderOk meta.original_count meta.recovery_count meta.shard_bytes then
    match rsAddShards meta.recovery_count meta.shard_bytes [] payloads with
    | .error e => (.error (.rs e), fs)
    | .ok added =>
      match rsDecode originals meta.original_count added with
      | .error e => (.error (.rs e), fs)
      | .ok decoded =>
        match decoded.getLast? with
        | none => (.error .noChunks, fs)
        | some last =>
          let expected := leVal ((last.drop (last.length - 8)).take 8)
          match openOutput (!force) fs with
          | none => (.error .io, fs)
          | some _ =>
            let written := writeChunks decoded expected
            if sha512Model (written ++ commit) ≠ meta.hash then
              (.error .checksumMismatch, some written)
            else (.ok (), some written)
  else (.error (.rs .unsupported), fs)

/-- restore.rs restore: the chunk-processing loop, tracking the first
Meta header seen, the first payload identifier seen before any Meta, and
the collected (index, payload bytes) pairs, with the source's consistency
checks: a later Meta must equal the first, a Meta must extend an earlier
payload identifier, and every payload identifier must prefix the Meta
hash (or equal the first identifier). -/
def restoreLoop (prevMeta : Option MetaHeader) (prevId : Option Bytes)
    (payloads : List (Nat × Bytes)) :
    List Bytes → Except RestoreError (Option MetaHeader × List (Nat × Bytes))
  | [] => .ok (prevMeta, payloads)
  | chunk :: rest =>
      match Header.read_from chunk with
      | .error e => .error (.format e)
      | .ok (.meta m, _) =>
          match prevMeta with
          | some meta =>
              if meta ≠ m then .error .metaMismatch
              else restoreLoop prevMeta prevId payloads rest
          | none =>
              match prevId with
              | some id =>
                  if ¬ id.isPrefixOf m.hash then .error .metaIdentifierMismatch
                  else restoreLoop (some m) prevId payloads rest
              | none => restoreLoop (some m) prevId payloads rest
      | .ok (.payload p, bytes) =>
          match prevMeta with
          | some m =>
              if ¬ p.identifier.isPrefixOf m.hash then
                .error .payloadIdentifierMismatch
              else restoreLoop prevMeta prevId
                (payloads ++ [(p.index, bytes)]) rest
          | none =>
              match prevId with
              | some id =>
                  if id ≠ p.identifier then .error .payloadIdentifierMismatch
                  else restoreLoop prevMeta prevId
                    (payloads ++ [(p.index, bytes)]) rest
              | none => restoreLoop prevMeta (some p.identifier)
                  (payloads ++ [(p.index, bytes)]) rest

/-- restore.rs restore, from decoded chunk byte buffers (the scan-reading
stage is an external collaborator) to the outcome and the final
destination file state. -/
def restore (originals : List Bytes) (chunks : List Bytes) (force : Bool)
    (commit : Bytes) (fs : Option Bytes) :
    Except RestoreError Unit × Option Bytes :=
  match restoreLoop none none [] chunks with
  | .error e => (.error e, fs)
  | .ok (none, _) => (.error .noMeta, fs)
  | .ok (some meta, payloads) =>
      write_output originals meta payloads force commit fs

/-! ## Encoder (src/create/mod.rs, src/create/render.rs) -/

/-- Vec::resize with zero fill, as create uses it on the data buffer. -/
def resizeZero (l : Bytes) (m : Nat) : Bytes :=
  l.take m ++ List.replicate (m - l.length) 0

/-- create/mod.rs create: the padded buffer - the data resized with zeros
to the next multiple of the shard size above (8 + length), with the
original length then written over the trailing 8 bytes as a u64. -/
def paddedBuffer (data : Bytes) (dbps : Nat) : Bytes :=
  let buffer_size := nextMultipleOf (8 + data.length) dbps
  (resizeZero data buffer_size).take (buffer_size - 8) ++
    leBytes 8 data.length

/-- create/mod.rs create: the data shard count the encoder slices
(layout.rs derives the same number as divCeil of the same buffer size). -/
def originalCount (n dbps : Nat) : Nat :=
  divCeil (nextMultipleOf (8 + n) dbps) dbps

/-- create/mod.rs create: the original shards - consecutive
data_bytes_per_shard slices of the padded buffer. -/
def originalShards (data : Bytes) (dbps : Nat) : List Bytes :=
  (List.range (originalCount data.length dbps)).map fun i =>
    ((paddedBuffer data dbps).drop (i * dbps)).take dbps

/-- Modelled from the spec: a recovery shard produced by the external
reed-solomon-simd encoder is an opaque byte buffer of the configured
shard length whose content the repository code never inspects; the model
takes a rotation of the joined original data. -/
def rsShard (originals : List Bytes) (dbps i : Nat) : Bytes :=
  (originals.flatten.rotate i).take dbps

/-- create/mod.rs create: one payload chunk - the Payload header carrying
the shard index and the hash-prefix identifier, followed by the recovery
shard bytes (QR symbol encode/decode is treated as the identity, per the
round-trip claim). -/
def payloadChunk (hash : Bytes) (i : Nat) (shard : Bytes) : Bytes :=
  Header.write_to (.payload ⟨i, hash.take IDENTIFIER_LENGTH⟩) ++ shard

/-- create/mod.rs + render.rs: the full encode over the modelled
collaborators - digest of data and commit, Meta header, and the payload
chunks for the recovery shards 0..recovery_count. -/
def encodeMeta (data commit : Bytes) (dbps rcount : Nat) : MetaHeader :=
  let digest := sha512Model (data ++ commit)
  ⟨digest.take IDENTIFIER_LENGTH, digest,
    originalCount data.length dbps, rcount, dbps⟩

/-- The chunk the Meta header is rendered as (render.rs render_banner
writes the header bytes into one QR symbol). -/
def metaChunk (data commit : Bytes) (dbps rcount : Nat) : Bytes :=
  Header.write_to (.meta (encodeMeta data commit dbps rcount))

/-- The payload chunk for recovery shard i of the encoded document. -/
def encodedPayloadChunk (data commit : Bytes) (dbps i : Nat) : Bytes :=
  payloadChunk (sha512Model (data ++ commit)) i
    (rsShard (originalShards data dbps) dbps i)

/-! ## Helper lemmas for the encode/reconstruct pipeline -/

theorem le_nextMultipleOf (n m : Nat) (hm : 0 < m) : n ≤ nextMultipleOf n m := by
  unfold nextMultipleOf
  have h := Nat.div_add_mod (n + m - 1) m
  have hr : (n + m - 1) % m < m := Nat.mod_lt _ hm
  have hq : m * ((n + m - 1) / m) = n + m - 1 - (n + m - 1) % m :=
    Nat.eq_sub_of_add_eq h
  rw [Nat.mul_comm, hq]
  omega

theorem divCeil_mul (x d : Nat) (hd : 0 < d) : divCeil (x * d) d = x := by
  unfold divCeil
  rw [Nat.add_sub_assoc hd, Nat.add_comm, Nat.add_mul_div_right _ _ hd,
    Nat.div_eq_of_lt (by omega), Nat.zero_add]

theorem nextMultipleOf_eq_divCeil_mul (n m : Nat) :
    nextMultipleOf n m = divCeil n m * m := rfl

theorem originalCount_mul (n dbps : Nat) (hd : 0 < dbps) :
    originalCount n dbps * dbps = nextMultipleOf (8 + n) dbps := by
  unfold originalCount
  rw [nextMultipleOf_eq_divCeil_mul, divCeil_mul _ _ hd]

theorem originalCount_pos (n dbps : Nat) (hd : 0 < dbps) :
    0 < originalCount n dbps := by
  by_contra h
  have h0 : originalCount n dbps = 0 := by omega
  have hmul := originalCount_mul n dbps hd
  rw [h0] at hmul
  have hle := le_nextMultipleOf (8 + n) dbps hd
  omega

theorem paddedBuffer_eq (data : Bytes) (dbps : Nat) (hd : 0 < dbps) :
    paddedBuffer data dbps =
      data ++
        List.replicate
          (nextMultipleOf (8 + data.length) dbps - 8 - data.length) 0 ++
        leBytes 8 data.length := by
  have hge : 8 + data.length ≤ nextMultipleOf (8 + data.length) dbps :=
    le_nextMultipleOf _ _ hd
  set bs := nextMultipleOf (8 + data.length) dbps with hbs
  simp only [paddedBuffer, resizeZero, ← hbs]
  rw [List.take_of_length_le (by omega : data.length ≤ bs)]
  rw [show bs - 8 = data.length + (bs - 8 - data.length) from by omega]
  rw [List.take_append]
  rw [List.take_replicate]
  rw [show min (bs - 8 - data.length) (bs - data.length) =
    bs - 8 - data.length from by omega,
    show data.length + (bs - 8 - data.length) - data.length =
      bs - 8 - data.length from by omega]

theorem paddedBuffer_length (data : Bytes) (dbps : Nat) (hd : 0 < dbps) :
    (paddedBuffer data dbps).length =
      nextMultipleOf (8 + data.length) dbps := by
  have hge : 8 + data.length ≤ nextMultipleOf (8 + data.length) dbps :=
    le_nextMultipleOf _ _ hd
  rw [paddedBuffer_eq data dbps hd]
  simp [leBytes_length]
  omega

theorem writeChunks_eq_take_flatten (cs : List Bytes) (e : Nat) :
    writeChunks cs e = cs.flatten.take e := by
  induction cs generalizing e with
  | nil => simp [writeChunks]
  | cons c cs ih =>
      rw [writeChunks, List.flatten_cons]
      by_cases hc : c.length > e
      · rw [if_pos hc]
        rw [List.take_append_of_le_length (by omega)]
      · rw [if_neg hc]
        rw [ih]
        rw [show e = c.length + (e - c.length) from by omega, List.take_append]
        congr 2
        omega

theorem flatten_chunks (k d : Nat) (l : List Nat) (h : l.length = k * d) :
    ((List.range k).map fun i => (l.drop (i * d)).take d).flatten = l := by
  induction k generalizing l with
  | zero =>
      simp at h
      simp [h]
  | succ k ih =>
      rw [List.range_succ_eq_map]
      simp only [List.map_cons, List.map_map, List.flatten_cons]
      rw [Nat.zero_mul, List.drop_zero]
      have hstep : ((fun i => (l.drop (i * d)).take d) ∘ Nat.succ) =
          fun i => (l.drop (Nat.succ i * d)).take d := rfl
      have hdrop :
          ((List.range k).map fun i => (l.drop (Nat.succ i * d)).take d) =
          (List.range k).map fun i => ((l.drop d).drop (i * d)).take d := by
        apply List.map_congr_left
        intro i hi
        rw [List.drop_drop]
        congr 2
        simp [Nat.succ_eq_add_one]
        ring
      have hlen : (l.drop d).length = k * d := by
        rw [List.length_drop, h]
        have hmul : (k + 1) * d = k * d + d := by ring
        rw [hmul]
        omega
      rw [hstep, hdrop, ih (l.drop d) hlen]
      exact List.take_append_drop d l

theorem originalShards_flatten (data : Bytes) (dbps : Nat) (hd : 0 < dbps) :
    (originalShards data dbps).flatten = paddedBuffer data dbps := by
  unfold originalShards
  exact flatten_chunks _ _ _
    (by rw [paddedBuffer_length data dbps hd, ← originalCount_mul data.length dbps hd])

theorem originalShards_length (data : Bytes) (dbps : Nat) :
    (originalShards data dbps).length = originalCount data.length dbps := by
  simp [originalShards]

theorem originalShards_getLast (data : Bytes) (dbps : Nat) (hd : 0 < dbps) :
    (originalShards data dbps).getLast? =
      some (((paddedBuffer data dbps).drop
        ((originalCount data.length dbps - 1) * dbps)).take dbps) := by
  have hk := originalCount_pos data.length dbps hd
  unfold originalShards
  obtain ⟨k, hk2⟩ : ∃ k, originalCount data.length dbps = k + 1 :=
    ⟨originalCount data.length dbps - 1, by omega⟩
  rw [hk2, List.range_succ, List.map_append]
  simp [List.getLast?_concat]

theorem originalShards_trailer (data : Bytes) (dbps : Nat) (hd : 0 < dbps)
    (h8 : 8 ≤ dbps) :
    ∃ last, (originalShards data dbps).getLast? = some last ∧
      last.length = dbps ∧
      (last.drop (last.length - 8)).take 8 = leBytes 8 data.length := by
  have hge : 8 + data.length ≤ nextMultipleOf (8 + data.length) dbps :=
    le_nextMultipleOf _ _ hd
  set bs := nextMultipleOf (8 + data.length) dbps with hbs
  set k := originalCount data.length dbps with hkdef
  have hk := originalCount_pos data.length dbps hd
  have hmul : k * dbps = bs := originalCount_mul data.length dbps hd
  have hplen : (paddedBuffer data dbps).length = bs :=
    paddedBuffer_length data dbps hd
  have hsub : (k - 1) * dbps = bs - dbps := by
    have : (k - 1) * dbps = k * dbps - dbps := by
      rw [Nat.sub_mul, Nat.one_mul]
    omega
  have hbsd : dbps ≤ bs := by
    rw [← hmul]
    exact Nat.le_mul_of_pos_left dbps hk
  refine ⟨_, originalShards_getLast data dbps hd, ?_, ?_⟩
  · rw [List.length_take, List.length_drop, hplen, hsub]
    omega

  · have hlast : (((paddedBuffer data dbps).drop ((k - 1) * dbps)).take dbps) =
        (paddedBuffer data dbps).drop (bs - dbps) := by
      rw [hsub]
      apply List.take_of_length_le
      rw [List.length_drop, hplen]
      omega
    rw [hlast]
    have hlen2 : ((paddedBuffer data dbps).drop (bs - dbps)).length = dbps := by
      rw [List.length_drop, hplen]
      omega
    rw [hlen2, List.drop_drop]
    rw [show bs - dbps + (dbps - 8) = bs - 8 from by omega]
    rw [paddedBuffer_eq data dbps hd, ← hbs]
    rw [show (data ++ List.replicate (bs - 8 - data.length) 0 ++
        leBytes 8 data.length) = (data ++ List.replicate (bs - 8 - data.length) 0) ++
        leBytes 8 data.length from by rw [List.append_assoc]]
    rw [List.drop_left' (by simp [List.length_append]; omega)]
    exact List.take_of_length_le (by rw [leBytes_length])



theorem Header.read_from_payload_append (i : Nat) (id rest : Bytes)
    (hi : i < 65535) (hid : id.length = IDENTIFIER_LENGTH) :
    Header.read_from (Header.write_to (.payload ⟨i, id⟩) ++ rest) =
      .ok (.payload ⟨i, id⟩, rest) := by
  simp only [Header.write_to, Header.read_from, List.append_assoc]
  rw [readU16_leBytes, Nat.mod_eq_of_lt (by omega : i < 65536)]
  dsimp only
  rw [if_neg (by omega : ¬ i = 65535)]
  rw [readExact_append _ _ _ hid]

theorem take_isPrefixOf (l : Bytes) (n : Nat) : (l.take n).isPrefixOf l = true := by
  rw [List.isPrefixOf_iff_prefix]
  exact List.take_prefix n l

theorem read_payloadChunk (hash : Bytes) (i : Nat) (shard : Bytes)
    (hi : i < 65535) (hlen : 4 ≤ hash.length) :
    Header.read_from (payloadChunk hash i shard) =
      .ok (.payload ⟨i, hash.take IDENTIFIER_LENGTH⟩, shard) := by
  unfold payloadChunk
  exact Header.read_from_payload_append i _ _ hi
    (by simp [List.length_take, IDENTIFIER_LENGTH]; omega)

theorem restoreLoop_payloads (meta : MetaHeader) (prevId : Option Bytes)
    (sub : List Nat) (shardOf : Nat → Bytes) (acc : List (Nat × Bytes))
    (hlen : 4 ≤ meta.hash.length)
    (hidx : ∀ i ∈ sub, i < 65535) :
    restoreLoop (some meta) prevId acc
        (sub.map fun i => payloadChunk meta.hash i (shardOf i)) =
      .ok (some meta, acc ++ sub.map fun i => (i, shardOf i)) := by
  induction sub generalizing acc with
  | nil => simp [restoreLoop]
  | cons i rest ih =>
      simp only [List.map_cons]
      rw [restoreLoop]
      rw [read_payloadChunk meta.hash i (shardOf i) (hidx i (by simp)) hlen]
      dsimp only
      rw [if_neg (by simp [take_isPrefixOf meta.hash IDENTIFIER_LENGTH])]
      rw [ih (acc ++ [(i, shardOf i)]) fun j hj => hidx j (by simp [hj])]
      simp

theorem rsAddShards_ok (rcount dbps : Nat) (ps acc : List (Nat × Bytes))
    (hidx : ∀ pr ∈ ps, pr.1 < rcount)
    (hlen : ∀ pr ∈ ps, pr.2.length = dbps)
    (hnodup : (acc.map Prod.fst ++ ps.map Prod.fst).Nodup) :
    rsAddShards rcount dbps acc ps = .ok (acc ++ ps) := by
  induction ps generalizing acc with
  | nil => simp [rsAddShards]
  | cons pr rest ih =>
      obtain ⟨i, s⟩ := pr
      rw [rsAddShards]
      rw [if_neg (by have := hidx (i, s) (by simp); simp at this ⊢; omega)]
      have hni : i ∉ acc.map Prod.fst := by
        simp only [List.map_cons] at hnodup
        have hdisj := (List.nodup_append.mp hnodup).2.2
        intro hmem
        exact hdisj hmem (by simp)
      rw [if_neg (by simpa using hni)]
      rw [if_neg (by simp [hlen (i, s) (by simp)])]
      rw [ih (acc ++ [(i, s)]) (fun pr hpr => hidx pr (by simp [hpr]))
        (fun pr hpr => hlen pr (by simp [hpr]))
        (by simpa [List.append_assoc] using hnodup)]
      simp


theorem rsShard_length (data : Bytes) (dbps : Nat) (hd : 0 < dbps) (i : Nat) :
    (rsShard (originalShards data dbps) dbps i).length = dbps := by
  unfold rsShard
  rw [List.length_take, List.length_rotate, originalShards_flatten data dbps hd,
    paddedBuffer_length data dbps hd]
  have hge : 8 + data.length ≤ nextMultipleOf (8 + data.length) dbps :=
    le_nextMultipleOf _ _ hd
  have hk := originalCount_pos data.length dbps hd
  have hmul := originalCount_mul data.length dbps hd
  have hbsd : dbps ≤ nextMultipleOf (8 + data.length) dbps := by
    rw [← hmul]
    exact Nat.le_mul_of_pos_left dbps hk
  omega

theorem leVal_leBytes8 (n : Nat) : leVal (leBytes 8 n) = n % 2 ^ 64 := by
  rw [leVal_leBytes]
  norm_num

theorem write_output_run (data commit : Bytes) (dbps rcount : Nat)
    (sub : List Nat) (meta : MetaHeader) (force : Bool) (fs : Option Bytes)
    (hmk : meta.original_count = originalCount data.length dbps)
    (hmr : meta.recovery_count = rcount)
    (hms : meta.shard_bytes = dbps)
    (h64 : dbps % 64 = 0) (hdl : 64 ≤ dbps) (hn : data.length < 2 ^ 64)
    (hr0 : 0 < rcount) (hnd : sub.Nodup) (hsub : ∀ i ∈ sub, i < rcount)
    (henough : originalCount data.length dbps ≤ sub.length) :
    write_output (originalShards data dbps) meta
        (sub.map fun i => (i, rsShard (originalShards data dbps) dbps i))
        force commit fs =
      match openOutput (!force) fs with
      | none => (.error .io, fs)
      | some _ =>
          if sha512Model (data ++ commit) ≠ meta.hash
          then (.error .checksumMismatch, some data)
          else (.ok (), some data) := by
  have hd : 0 < dbps := by omega
  have hok : rsDecoderOk meta.original_count meta.recovery_count
      meta.shard_bytes = true := by
    simp only [rsDecoderOk, hmk, hmr, hms, Bool.and_eq_true, decide_eq_true_eq]
    exact ⟨⟨⟨originalCount_pos data.length dbps hd, hr0⟩, hd⟩, h64⟩
  unfold write_output
  rw [if_pos hok]
  rw [hmr, hms]
  rw [rsAddShards_ok rcount dbps _ []
    (by intro pr hpr
        obtain ⟨i, hi, hpr2⟩ := List.mem_map.mp hpr
        subst hpr2
        exact hsub i hi)
    (by intro pr hpr
        obtain ⟨i, hi, hpr2⟩ := List.mem_map.mp hpr
        subst hpr2
        exact rsShard_length data dbps hd i)
    (by
      have hcomp : (Prod.fst ∘ fun i : Nat =>
          (i, rsShard (originalShards data dbps) dbps i)) = id := rfl
      simpa [List.map_map, hcomp] using hnd)]
  dsimp only
  rw [show rsDecode (originalShards data dbps) meta.original_count
      ([] ++ sub.map fun i => (i, rsShard (originalShards data dbps) dbps i)) =
      .ok (originalShards data dbps) from by
    unfold rsDecode
    rw [if_neg (by simp [hmk]; omega)]]
  dsimp only
  obtain ⟨last, hlast, hllen, htr⟩ := originalShards_trailer data dbps hd (by omega)
  rw [hlast]
  dsimp only
  rw [htr, leVal_leBytes8, Nat.mod_eq_of_lt hn]
  have hwritten : writeChunks (originalShards data dbps) data.length = data := by
    rw [writeChunks_eq_take_flatten, originalShards_flatten data dbps hd,
      paddedBuffer_eq data dbps hd, List.append_assoc, List.take_left]
  cases hopen : openOutput (!force) fs with
  | none => rfl
  | some f => rw [hwritten]

theorem write_output_insufficient (data commit : Bytes) (dbps rcount : Nat)
    (sub : List Nat) (meta : MetaHeader) (force : Bool) (fs : Option Bytes)
    (hmk : meta.original_count = originalCount data.length dbps)
    (hmr : meta.recovery_count = rcount)
    (hms : meta.shard_bytes = dbps)
    (h64 : dbps % 64 = 0) (hdl : 64 ≤ dbps)
    (hr0 : 0 < rcount) (hnd : sub.Nodup) (hsub : ∀ i ∈ sub, i < rcount)
    (hless : sub.length < originalCount data.length dbps) :
    write_output (originalShards data dbps) meta
        (sub.map fun i => (i, rsShard (originalShards data dbps) dbps i))
        force commit fs = (.error (.rs .notEnough), fs) := by
  have hd : 0 < dbps := by omega
  have hok : rsDecoderOk meta.original_count meta.recovery_count
      meta.shard_bytes = true := by
    simp only [rsDecoderOk, hmk, hmr, hms, Bool.and_eq_true, decide_eq_true_eq]
    exact ⟨⟨⟨originalCount_pos data.length dbps hd, hr0⟩, hd⟩, h64⟩
  unfold write_output
  rw [if_pos hok]
  rw [hmr, hms]
  rw [rsAddShards_ok rcount dbps _ []
    (by intro pr hpr
        obtain ⟨i, hi, hpr2⟩ := List.mem_map.mp hpr
        subst hpr2
        exact hsub i hi)
    (by intro pr hpr
        obtain ⟨i, hi, hpr2⟩ := List.mem_map.mp hpr
        subst hpr2
        exact rsShard_length data dbps hd i)
    (by
      have hcomp : (Prod.fst ∘ fun i : Nat =>
          (i, rsShard (originalShards data dbps) dbps i)) = id := rfl
      simpa [List.map_map, hcomp] using hnd)]
  dsimp only
  rw [show rsDecode (originalShards data dbps) meta.original_count
      ([] ++ sub.map fun i => (i, rsShard (originalShards data dbps) dbps i)) =
      .error .notEnough from by
    unfold rsDecode
    rw [if_pos (by simp [hmk]; omega)]]

theorem rsAddShards_dup (rcount dbps : Nat) (ps acc : List (Nat × Bytes))
    (hidx : ∀ pr ∈ ps, pr.1 < rcount)
    (hlen : ∀ pr ∈ ps, pr.2.length = dbps)
    (hacc : (acc.map Prod.fst).Nodup)
    (hdup : ¬ (acc.map Prod.fst ++ ps.map Prod.fst).Nodup) :
    rsAddShards rcount dbps acc ps = .error .duplicateIndex := by
  induction ps generalizing acc with
  | nil =>
      exact absurd (by simpa using hacc) hdup
  | cons pr rest ih =>
      obtain ⟨i, s⟩ := pr
      rw [rsAddShards]
      rw [if_neg (by have := hidx (i, s) (by simp); simp at this ⊢; omega)]
      by_cases hc : i ∈ acc.map Prod.fst
      · rw [if_pos (by simpa using hc)]
      · rw [if_neg (by simpa using hc)]
        rw [if_neg (by simp [hlen (i, s) (by simp)])]
        exact ih (acc ++ [(i, s)])
          (fun pr hpr => hidx pr (by simp [hpr]))
          (fun pr hpr => hlen pr (by simp [hpr]))
          (by
            simp only [List.map_append, List.map_cons, List.map_nil]
            rw [List.nodup_append]
            refine ⟨hacc, by simp, ?_⟩
            intro a ha hb
            simp at hb
            subst hb
            exact hc ha)
          (by simpa [List.append_assoc] using hdup)


theorem encodeMeta_WF (data commit : Bytes) (dbps rcount : Nat)
    (hk16 : originalCount data.length dbps < 65536)
    (hr16 : rcount < 65536) (hdbig : dbps < 2 ^ 64) :
    (Header.meta (encodeMeta data commit dbps rcount)).WF := by
  refine ⟨?_, ?_, ?_, ?_, ?_⟩
  · simp [encodeMeta, List.length_take, sha512Model_length, IDENTIFIER_LENGTH]
  · simp [encodeMeta, sha512Model_length]
  · exact hk16
  · exact hr16
  · exact hdbig

theorem restore_run (data commit : Bytes) (dbps rcount : Nat)
    (sub : List Nat) (force : Bool) (fs : Option Bytes)
    (hk16 : originalCount data.length dbps < 65536)
    (hr16 : rcount < 65536) (hdbig : dbps < 2 ^ 64)
    (hsub : ∀ i ∈ sub, i < rcount) :
    restore (originalShards data dbps)
        (metaChunk data commit dbps rcount ::
          sub.map fun i => encodedPayloadChunk data commit dbps i)
        force commit fs =
      write_output (originalShards data dbps)
        (encodeMeta data commit dbps rcount)
        (sub.map fun i => (i, rsShard (originalShards data dbps) dbps i))
        force commit fs := by
  unfold restore
  rw [restoreLoop]
  rw [show Header.read_from (metaChunk data commit dbps rcount) =
      .ok (.meta (encodeMeta data commit dbps rcount), []) from by
    unfold metaChunk
    exact Header.read_from_write_to _
      (encodeMeta_WF data commit dbps rcount hk16 hr16 hdbig)]
  dsimp only
  rw [show (sub.map fun i => encodedPayloadChunk data commit dbps i) =
      sub.map fun i => payloadChunk (encodeMeta data commit dbps rcount).hash i
        (rsShard (originalShards data dbps) dbps i) from rfl]
  rw [restoreLoop_payloads (encodeMeta data commit dbps rcount) none sub
    (fun i => rsShard (originalShards data dbps) dbps i) []
    (by simp [encodeMeta, sha512Model_length])
    (fun i hi => by have := hsub i hi; omega)]
  dsimp only
  rw [List.nil_append]

/-! ## Claim C1: round trip and resilience -/

/-- C1: for every byte sequence, every valid shard geometry (shard size a
positive multiple of 64 below 2^64, counts fitting the u16 header fields),
and every duplicate-free selection of k of the recovery shards produced by
encode (symbol encode/decode treated as the identity), giving the Meta
chunk and those k shards to reconstruct yields exactly the original bytes
when k is at least original-count, and fails with the erasure decoder's
insufficient-data error - no panic, and no output written - when k is
smaller. -/
theorem c1_round_trip_resilience (data commit : Bytes) (dbps rcount : Nat)
    (sub : List Nat) (h64 : dbps % 64 = 0) (hdl : 64 ≤ dbps)
    (hn : data.length < 2 ^ 64) (hdbig : dbps < 2 ^ 64)
    (hk16 : originalCount data.length dbps < 65536)
    (hr0 : 0 < rcount) (hr16 : rcount < 65536)
    (hnd : sub.Nodup) (hsub : ∀ i ∈ sub, i < rcount) :
    restore (originalShards data dbps)
        (metaChunk data commit dbps rcount ::
          sub.map fun i => encodedPayloadChunk data commit dbps i)
        false commit none =
      if originalCount data.length dbps ≤ sub.length
      then (.ok (), some data)
      else (.error (.rs .notEnough), none) := by
  rw [restore_run data commit dbps rcount sub false none hk16 hr16 hdbig hsub]
  by_cases hcase : originalCount data.length dbps ≤ sub.length
  · rw [if_pos hcase]
    rw [write_output_run data commit dbps rcount sub _ false none rfl rfl rfl
      h64 hdl hn hr0 hnd hsub hcase]
    have hh : (encodeMeta data commit dbps rcount).hash =
        sha512Model (data ++ commit) := rfl
    rw [hh]
    dsimp only [openOutput]
    rw [if_neg (by simp)]
    rfl
  · rw [if_neg hcase]
    exact write_output_insufficient data commit dbps rcount sub _ false none
      rfl rfl rfl h64 hdl hr0 hnd hsub (by omega)

/-- C1 witness: a 1-byte document in 64-byte shards with two recovery
shards; shard 0 alone reaches the threshold and restores the byte. -/
theorem c1_round_trip_resilience_witness :
    restore (originalShards [7] 64)
        (metaChunk [7] [] 64 2 ::
          [0].map fun i => encodedPayloadChunk [7] [] 64 i)
        false [] none =
      if originalCount (List.length [7]) 64 ≤ List.length [0]
      then (.ok (), some [7])
      else (.error (.rs .notEnough), none) :=
  c1_round_trip_resilience [7] [] 64 2 [0] (by decide) (by decide) (by decide)
    (by decide) (by decide) (by decide) (by decide) (by decide) (by decide)

/-! ## Claim C5: duplicate shard indices -/

/-- C5 counterexample: two payload chunks with the same index and
byte-identical content (they are the same chunk) make reconstruction fail
with the decoder's duplicate-index error instead of keeping one copy and
succeeding with the original byte, refuting the claim at this input. -/
theorem c5_counterexample :
    (restore (originalShards [7] 64)
        [metaChunk [7] [] 64 2, encodedPayloadChunk [7] [] 64 0,
          encodedPayloadChunk [7] [] 64 0]
        false [] none) = (.error (.rs .duplicateIndex), none) ∧
      ((.error (.rs .duplicateIndex), none) :
          Except RestoreError Unit × Option Bytes) ≠ (.ok (), some [7]) :=
  ⟨rfl, fun h => Except.noConfusion (congrArg Prod.fst h)⟩

/-- C5 (amended): restore forwards every payload entry to the erasure
decoder without deduplication and without comparing bytes, and the
decoder rejects the second shard at an already-supplied index, so any
repeated shard index - whether the duplicate bytes are identical or
different - fails reconstruction with a duplicate-shard-index error; no
silent arbitrary resolution and no byte comparison happens. -/
theorem c5_duplicate_shards_rejected (data commit : Bytes)
    (dbps rcount : Nat) (sub : List Nat) (force : Bool) (fs : Option Bytes)
    (h64 : dbps % 64 = 0) (hdl : 64 ≤ dbps) (hdbig : dbps < 2 ^ 64)
    (hk16 : originalCount data.length dbps < 65536)
    (hr0 : 0 < rcount) (hr16 : rcount < 65536)
    (hsub : ∀ i ∈ sub, i < rcount) (hdup : ¬ sub.Nodup) :
    restore (originalShards data dbps)
        (metaChunk data commit dbps rcount ::
          sub.map fun i => encodedPayloadChunk data commit dbps i)
        force commit fs = (.error (.rs .duplicateIndex), fs) := by
  have hd : 0 < dbps := by omega
  rw [restore_run data commit dbps rcount sub force fs hk16 hr16 hdbig hsub]
  have hok : rsDecoderOk (encodeMeta data commit dbps rcount).original_count
      (encodeMeta data commit dbps rcount).recovery_count
      (encodeMeta data commit dbps rcount).shard_bytes = true := by
    simp only [rsDecoderOk, Bool.and_eq_true, decide_eq_true_eq]
    exact ⟨⟨⟨originalCount_pos data.length dbps hd, hr0⟩, hd⟩, h64⟩
  unfold write_output
  rw [if_pos hok]
  rw [show (encodeMeta data commit dbps rcount).recovery_count = rcount from rfl,
    show (encodeMeta data commit dbps rcount).shard_bytes = dbps from rfl]
  rw [rsAddShards_dup rcount dbps _ []
    (by intro pr hpr
        obtain ⟨i, hi, hpr2⟩ := List.mem_map.mp hpr
        subst hpr2
        exact hsub i hi)
    (by intro pr hpr
        obtain ⟨i, hi, hpr2⟩ := List.mem_map.mp hpr
        subst hpr2
        exact rsShard_length data dbps hd i)
    (by simp)
    (by
      have hcomp : (Prod.fst ∘ fun i : Nat =>
          (i, rsShard (originalShards data dbps) dbps i)) = id := rfl
      simpa [List.map_map, hcomp] using hdup)]

/-- C5 witness: the duplicate rejection applied at the concrete
double-selection of shard 0. -/
theorem c5_witness :
    restore (originalShards [7] 64)
        (metaChunk [7] [] 64 2 ::
          [0, 0].map fun i => encodedPayloadChunk [7] [] 64 i)
        false [] none = (.error (.rs .duplicateIndex), none) :=
  c5_duplicate_shards_rejected [7] [] 64 2 [0, 0] false none (by decide)
    (by decide) (by decide) (by decide) (by decide) (by decide) (by decide)
    (by decide)

/-! ## Claim C6: checksum mismatch handling -/

/-- C6 counterexample: with a Meta hash that does not match the content,
write_output reports the checksum mismatch but the destination file has
already been created and fully written - content is left at the
destination, refuting the claim that the file is not written. -/
theorem c6_counterexample :
    write_output (originalShards [7] 64)
        ⟨[0, 0, 0, 0], List.replicate 64 1, 1, 1, 64⟩
        [(0, rsShard (originalShards [7] 64) 64 0)] false [] none =
      (.error .checksumMismatch, some [7]) ∧
      (some [7] : Option Bytes) ≠ none :=
  ⟨rfl, by simp⟩

/-- C6 (amended): when the digest recomputed over the truncated
reconstructed bytes and the build tag differs from the Meta hash,
reconstruction fails with a ChecksumMismatchError - never a silent
wrong-content success - but the destination has already been opened,
truncated and fully written by the time the hash is compared, so the
wrong content is left at the destination. -/
theorem c6_checksum_mismatch_reported_but_written (data commit : Bytes)
    (dbps rcount : Nat) (sub : List Nat) (meta : MetaHeader)
    (hmk : meta.original_count = originalCount data.length dbps)
    (hmr : meta.recovery_count = rcount) (hms : meta.shard_bytes = dbps)
    (h64 : dbps % 64 = 0) (hdl : 64 ≤ dbps) (hn : data.length < 2 ^ 64)
    (hr0 : 0 < rcount) (hnd : sub.Nodup) (hsub : ∀ i ∈ sub, i < rcount)
    (henough : originalCount data.length dbps ≤ sub.length)
    (hhash : sha512Model (data ++ commit) ≠ meta.hash) :
    write_output (originalShards data dbps) meta
        (sub.map fun i => (i, rsShard (originalShards data dbps) dbps i))
        false commit none = (.error .checksumMismatch, some data) := by
  rw [write_output_run data commit dbps rcount sub meta false none hmk hmr hms
    h64 hdl hn hr0 hnd hsub henough]
  dsimp only [openOutput]
  rw [if_pos hhash]
  rfl

/-- C6 witness: the mismatch path at a concrete 1-byte document whose
Meta header carries a wrong hash. -/
theorem c6_witness :
    write_output (originalShards [7] 64)
        ⟨[0, 0, 0, 0], List.replicate 64 1, 1, 1, 64⟩
        ([0].map fun i => (i, rsShard (originalShards [7] 64) 64 i))
        false [] none = (.error .checksumMismatch, some [7]) :=
  c6_checksum_mismatch_reported_but_written [7] [] 64 1 [0]
    ⟨[0, 0, 0, 0], List.replicate 64 1, 1, 1, 64⟩ rfl rfl rfl (by decide)
    (by decide) (by decide) (by decide) (by decide) (by decide) (by decide)
    (by decide)

/-! ## Claim C7: Meta chunk synthesis -/

/-- render.rs render_banner: the serialized Meta header bytes drawn into
the banner QR symbol of a page. -/
def metaBytesOf (o : Options) : Bytes :=
  Header.write_to (.meta ⟨o.identifier, o.hash, o.data_shard_count,
    o.recovery_shard_count, o.data_bytes_per_shard⟩)

/-- render.rs render_banner: one call renders the Meta symbol twice (once
at each end of the banner); the u16 conversions of the shard counts fail
when a count exceeds 65535. -/
def render_banner_metas (o : Options) : Except String (List Bytes) :=
  if o.data_shard_count < 65536 ∧ o.recovery_shard_count < 65536 then
    .ok [metaBytesOf o, metaBytesOf o]
  else .error "cannot render that many chunks"

/-- create/mod.rs + render.rs: render_page runs once per page (there are
recovery_page_count pages) and calls render_banner each time, so the
document carries two Meta symbols per page. -/
def createMetaChunks (o : Options) : Except String (List Bytes) :=
  if o.data_shard_count < 65536 ∧ o.recovery_shard_count < 65536 then
    .ok ((List.range o.recovery_page_count).flatMap
      fun _ => [metaBytesOf o, metaBytesOf o])
  else .error "cannot render that many chunks"

/-- C7 counterexample: the 10000-byte scenario renders 28 Meta chunks (two
per page over 14 pages), not exactly one per logical document. -/
theorem c7_counterexample :
    (createMetaChunks scenarioPlan).toOption.map List.length = some 28 ∧
      (28 : Nat) ≠ 1 := by
  constructor
  · rfl
  · decide

/-- C7 (amended): every encode operation synthesizes one distinct Meta
chunk value per logical document - all rendered Meta chunks are
byte-identical and carry exactly the Document Identifier, Document Hash,
data shard count, recovery shard count and shard byte length - but it is
rendered twice per page (2 x recovery_page_count copies), not exactly
once. -/
theorem c7_meta_chunks (o : Options)
    (hk : o.data_shard_count < 65536) (hr : o.recovery_shard_count < 65536)
    (hid : o.identifier.length = IDENTIFIER_LENGTH) (hh : o.hash.length = 64)
    (hs : o.data_bytes_per_shard < 2 ^ 64) :
    ∃ chunks, createMetaChunks o = .ok chunks ∧
      chunks.length = 2 * o.recovery_page_count ∧
      (∀ c ∈ chunks, c = metaBytesOf o) ∧
      Header.read_from (metaBytesOf o) =
        .ok (.meta ⟨o.identifier, o.hash, o.data_shard_count,
          o.recovery_shard_count, o.data_bytes_per_shard⟩, []) := by
  refine ⟨_, by rw [createMetaChunks, if_pos ⟨hk, hr⟩], ?_, ?_, ?_⟩
  · induction o.recovery_page_count with
    | zero => rfl
    | succ n ih =>
        rw [List.range_succ, List.flatMap_append]
        simp [ih]
        ring
  · intro c hc
    obtain ⟨i, hi, hc2⟩ := List.mem_flatMap.mp hc
    simp at hc2
    exact hc2
  · exact Header.read_from_write_to _ ⟨hid, hh, hk, hr, hs⟩

/-- C7 witness: the Meta chunks of the 10000-byte scenario layout. -/
theorem c7_meta_chunks_witness :
    ∃ chunks, createMetaChunks scenarioPlan = .ok chunks ∧
      chunks.length = 2 * scenarioPlan.recovery_page_count ∧
      (∀ c ∈ chunks, c = metaBytesOf scenarioPlan) ∧
      Header.read_from (metaBytesOf scenarioPlan) =
        .ok (.meta ⟨scenarioPlan.identifier, scenarioPlan.hash,
          scenarioPlan.data_shard_count, scenarioPlan.recovery_shard_count,
          scenarioPlan.data_bytes_per_shard⟩, []) :=
  c7_meta_chunks scenarioPlan (by decide) (by decide) (by decide) (by decide)
    (by decide)

/-! ## Claims C9 and C10: destination overwrite policy -/

/-- C9: with an existing destination and force unset, write_output fails
with the open error and the destination keeps its old content; with force
set, the existing destination is truncated and overwritten with the
reconstructed bytes. -/
theorem c9_overwrite_policy (data commit old : Bytes) (dbps rcount : Nat)
    (sub : List Nat)
    (h64 : dbps % 64 = 0) (hdl : 64 ≤ dbps) (hn : data.length < 2 ^ 64)
    (hr0 : 0 < rcount) (hnd : sub.Nodup) (hsub : ∀ i ∈ sub, i < rcount)
    (henough : originalCount data.length dbps ≤ sub.length) :
    write_output (originalShards data dbps)
        (encodeMeta data commit dbps rcount)
        (sub.map fun i => (i, rsShard (originalShards data dbps) dbps i))
        false commit (some old) = (.error .io, some old) ∧
    write_output (originalShards data dbps)
        (encodeMeta data commit dbps rcount)
        (sub.map fun i => (i, rsShard (originalShards data dbps) dbps i))
        true commit (some old) = (.ok (), some data) := by
  constructor
  · rw [write_output_run data commit dbps rcount sub _ false (some old)
      rfl rfl rfl h64 hdl hn hr0 hnd hsub henough]
    rfl
  · rw [write_output_run data commit dbps rcount sub _ true (some old)
      rfl rfl rfl h64 hdl hn hr0 hnd hsub henough]
    have hh : (encodeMeta data commit dbps rcount).hash =
        sha512Model (data ++ commit) := rfl
    rw [hh]
    dsimp only [openOutput]
    rw [if_neg (by simp)]
    rfl

/-- C9 witness: the two policies at a concrete 1-byte document and an
existing destination holding one byte. -/
theorem c9_overwrite_policy_witness :
    write_output (originalShards [7] 64) (encodeMeta [7] [] 64 2)
        ([0].map fun i => (i, rsShard (originalShards [7] 64) 64 i))
        false [] (some [9]) = (.error .io, some [9]) ∧
    write_output (originalShards [7] 64) (encodeMeta [7] [] 64 2)
        ([0].map fun i => (i, rsShard (originalShards [7] 64) 64 i))
        true [] (some [9]) = (.ok (), some [7]) :=
  c9_overwrite_policy [7] [] [9] 64 2 [0] (by decide) (by decide) (by decide)
    (by decide) (by decide) (by decide) (by decide)

/-- C10: with force set and no existing destination, the open options
(create_new false, create never enabled) make the open fail, so a forced
restore errors out instead of creating the missing output file, leaving
no file behind. -/
theorem c10_force_without_existing_file (data commit : Bytes)
    (dbps rcount : Nat) (sub : List Nat)
    (h64 : dbps % 64 = 0) (hdl : 64 ≤ dbps) (hn : data.length < 2 ^ 64)
    (hr0 : 0 < rcount) (hnd : sub.Nodup) (hsub : ∀ i ∈ sub, i < rcount)
    (henough : originalCount data.length dbps ≤ sub.length) :
    write_output (originalShards data dbps)
        (encodeMeta data commit dbps rcount)
        (sub.map fun i => (i, rsShard (originalShards data dbps) dbps i))
        true commit none = (.error .io, none) := by
  rw [write_output_run data commit dbps rcount sub _ true none
    rfl rfl rfl h64 hdl hn hr0 hnd hsub henough]
  rfl

/-- C10 witness: the forced restore against a missing destination at a
concrete 1-byte document. -/
theorem c10_force_without_existing_file_witness :
    write_output (originalShards [7] 64) (encodeMeta [7] [] 64 2)
        ([0].map fun i => (i, rsShard (originalShards [7] 64) 64 i))
        true [] none = (.error .io, none) :=
  c10_force_without_existing_file [7] [] 64 2 [0] (by decide) (by decide)
    (by decide) (by decide) (by decide) (by decide) (by decide)

end Paperback
